import Mathlib

/-!
Verification of the Bay Area News digest classification-and-ranking engine
(`process_digest.py`, with the acquisition-stage dedup of `fetch_rss.py`).

The engine is embedded shallowly: Python regular expressions become terms of
a small executable regex language `Re` (every repetition operator in the
pattern tables of the engine applies to a single-character class, which the
embedding exploits to stay structurally recursive); `re.search` with
`re.IGNORECASE` becomes `search`; timestamps become rationals (seconds since
the epoch); the stable Python list sort becomes a stable insertion sort.
-/

namespace BayArea

/-- Lower-casing of one character; model of Python case folding for the
`re.IGNORECASE` flag and of `str.lower`, covering ASCII plus `É`, the only
non-ASCII letter appearing in the pattern tables of the engine. -/
def asciiLower (c : Char) : Char :=
  if 'A' ≤ c ∧ c ≤ 'Z' then Char.ofNat (c.toNat + 32)
  else if c = 'É' then 'é' else c

/-- Single-character classes occurring in the patterns of the engine.  `range` is
stored with lower-case bounds and compared against the lower-cased input
character, matching `re.IGNORECASE` semantics for classes such as `[A-Z]`. -/
inductive CC where
  | any
  | digit
  | space
  | lit (c : Char)
  | oneOf (cs : List Char)
  | range (lo hi : Char)
deriving DecidableEq

/-- Which characters a class matches.  `.any` is Python `.` (anything but a
newline); `.space` is Python `\s`; `.digit` is `\d`; literals and `oneOf`
compare case-insensitively. -/
def ccMatches : CC → Char → Bool
  | .any, c => c ≠ '\n'
  | .digit, c => '0' ≤ c && c ≤ '9'
  | .space, c => c = ' ' || c = '\t' || c = '\n' || c = '\r' || c = '\x0b' || c = '\x0c'
  | .lit a, c => asciiLower c = asciiLower a
  | .oneOf cs, c => cs.any (fun a => asciiLower c = asciiLower a)
  | .range lo hi, c => lo ≤ asciiLower c && asciiLower c ≤ hi

/-- The regex fragment used by the pattern tables of the engine: the empty string,
one-character classes, concatenation, alternation, Kleene star of a
one-character class, and the word-boundary assertion `\b`. -/
inductive Re where
  | eps
  | cls (c : CC)
  | seq (a b : Re)
  | alt (a b : Re)
  | star (c : CC)
  | wb
deriving DecidableEq

/-- Word characters for the boundary assertion (ASCII model of the Python word-character class). -/
def isWordChar (c : Char) : Bool :=
  ('a' ≤ c && c ≤ 'z') || ('A' ≤ c && c ≤ 'Z') || ('0' ≤ c && c ≤ '9') || c = '_'

/-- Word-character test on the optional character just outside the window. -/
def isWordO : Option Char → Bool
  | none => false
  | some c => isWordChar c

/-- All states reachable from `(p, s)` by consuming zero or more characters
matching the class `c`; a state is the previously consumed character (for
word boundaries) together with the remaining input. -/
def starRun (c : CC) (p : Option Char) : List Char → List (Option Char × List Char)
  | [] => [(p, [])]
  | x :: xs =>
      (p, x :: xs) :: (if ccMatches c x then starRun c (some x) xs else [])

/-- All states reachable by matching `re` starting at the given state.  The
match of a regular language succeeds somewhere iff the reachable-state set is
nonempty, so collecting every alternative is a faithful boolean model of the
backtracking matcher. -/
def mrun : Re → Option Char × List Char → List (Option Char × List Char)
  | .eps, st => [st]
  | .cls _, (_, []) => []
  | .cls c, (_, x :: xs) => if ccMatches c x then [(some x, xs)] else []
  | .seq a b, st => (mrun a st).flatMap (mrun b)
  | .alt a b, st => mrun a st ++ mrun b st
  | .star c, (p, s) => starRun c p s
  | .wb, (p, s) => if isWordO p != isWordO s.head? then [(p, s)] else []

/-- Does `re` match some initial segment of `s`, given previous character
`p`? -/
def matchesAt (re : Re) (p : Option Char) (s : List Char) : Bool :=
  !(mrun re (p, s)).isEmpty

/-- Scan of `re.search`: try to match at each start position, tracking the
character to the left of the window for `\b`. -/
def searchFrom (re : Re) (p : Option Char) : List Char → Bool
  | [] => matchesAt re p []
  | x :: xs => matchesAt re p (x :: xs) || searchFrom re (some x) xs

/-- Model of Python `re.search(pattern, text, re.IGNORECASE) is not None`. -/
def search (re : Re) (s : List Char) : Bool :=
  searchFrom re none s

/-- Concatenation of a list of regexes. -/
def cat (l : List Re) : Re := l.foldr Re.seq Re.eps

/-- A regex matching nothing, used as the unit of alternation. -/
def reFail : Re := Re.cls (CC.oneOf [])

/-- Alternation of a list of regexes (a `(?:x|y|z)` group). -/
def alts (l : List Re) : Re := l.foldr Re.alt reFail

/-- Case-insensitive literal string. -/
def strCI (s : String) : Re := cat (s.data.map (fun c => Re.cls (CC.lit c)))

/-- Optionality — zero or one occurrence of a regex. -/
def optRe (r : Re) : Re := Re.alt r Re.eps

/-- Bounded repetition — between `m` and `n` occurrences of a one-character class. -/
def rep (c : CC) (m n : Nat) : Re :=
  cat (List.replicate m (Re.cls c) ++ List.replicate (n - m) (optRe (Re.cls c)))

/-- Unbounded repetition — at least `m` occurrences of a one-character class. -/
def repInf (c : CC) (m : Nat) : Re :=
  cat (List.replicate m (Re.cls c) ++ [Re.star c])

/-- Word boundary. -/
def bdy : Re := Re.wb

/-- Whitespace class. -/
def spc : Re := Re.cls CC.space

/-- One or more whitespace characters. -/
def spcPlus : Re := repInf CC.space 1

/-- Any number of arbitrary characters. -/
def anyStar : Re := Re.star CC.any

/-- Between `m` and `n` arbitrary characters. -/
def anyRep (m n : Nat) : Re := rep CC.any m n

/-- Word boundary followed by a case-insensitive literal. -/
def kw (s : String) : Re := cat [bdy, strCI s]

/-- Case-insensitive literal enclosed in word boundaries. -/
def kwb (s : String) : Re := cat [bdy, strCI s, bdy]

/-- Patterns of the Tech & Economy theme category. -/
def techPatterns : List Re :=
  [ cat [bdy, strCI "A", optRe (strCI "."), strCI "I", optRe (strCI "."), bdy],
    kwb "artificial intelligence", kw "startup", kw "layoff", kwb "venture capital",
    cat [bdy, strCI "VC", spc], kwb "IPO", kw "tech worker", kwb "Silicon Valley",
    kwb "gig economy", kwb "automation", kw "housing cost", kwb "cost of living",
    kwb "wage", kwb "job market", kw "econom", kwb "inflation", kwb "Google",
    kwb "Meta", kwb "Apple", kwb "OpenAI", kw "Anthrop", kwb "Salesforce", kwb "Uber",
    kwb "Lyft", kwb "Airbnb", kwb "Nvidia", kw "tech industr", kw "crypto",
    kwb "blockchain", kwb "funding round", kwb "unicorn", kwb "valuation",
    cat [bdy, strCI "downtown", anyRep 0 15, strCI "recover"],
    cat [bdy, strCI "office", anyRep 0 10, strCI "vacanc"],
    cat [bdy, strCI "return", anyRep 0 10, strCI "office", bdy],
    kw "remote work", cat [bdy, strCI "gig", spcPlus, strCI "work"], kw "foreclos",
    kw "job loss", kwb "jobs", kwb "hiring", kwb "workforce", kw "data center",
    kwb "energy capacity" ]

/-- Patterns of the Housing & Displacement theme category. -/
def housingPatterns : List Re :=
  [ kwb "housing", kwb "rent", kw "evict", kw "gentrific",
    cat [bdy, strCI "zon", alts [strCI "e", strCI "ing"], bdy],
    kw "homeless", kw "tenant", kw "landlord", kw "affordab", kw "displace",
    kwb "shelter", kw "encampment", kwb "unhoused", kwb "property tax",
    kwb "rent control", kwb "public housing", kwb "section 8", kwb "ADU",
    kwb "NIMBY", kwb "YIMBY", cat [bdy, strCI "modular", spcPlus, strCI "home"],
    cat [bdy, strCI "permit", bdy, anyStar, bdy, strCI "housing", bdy],
    cat [bdy, strCI "home", optRe (Re.cls CC.any), strCI "buyer"],
    kwb "community land trust", kwb "interim housing", kwb "real estate",
    kw "condo", kw "residential unit" ]

/-- Patterns of the Climate & Environment theme category. -/
def climatePatterns : List Re :=
  [ kw "wildfire", kwb "drought",
    cat [bdy, strCI "water", bdy, anyStar, bdy, strCI "supply", bdy],
    kwb "sea level", kw "emission", kw "pollut", kwb "climate", kw "environment",
    kw "flood", kwb "air quality", kwb "smoke", kwb "fire season", kwb "renewable",
    kwb "solar", kwb "electric vehicle", kwb "coastal erosion", kw "wetland",
    kwb "restoration", kwb "PG&E", kwb "power grid", kwb "blackout", kw "contaminat",
    kwb "toxic", kwb "king tide", kwb "watershed", kwb "stormwater", kwb "carbon",
    kw "native plant", kwb "reef", kwb "conservation", kw "sustainab", kwb "FEMA",
    kwb "NOAA", kw "pollinat", kwb "organic", kw "agricultur", kwb "refinery",
    kwb "marine reserve" ]

/-- Patterns of the Governance & Power theme category. -/
def governancePatterns : List Re :=
  [ kwb "city council", kwb "mayor", kwb "police", kwb "budget", kwb "ballot",
    cat [bdy, strCI "measure ", Re.cls (CC.range 'a' 'z'), bdy],
    kwb "recall", kw "election", kw "supervisor", kwb "district attorney",
    kw "corrupt", kw "transparenc", kw "accountab", kw "public safet", kwb "crime",
    kwb "prosecutor", kwb "jail", kwb "prison", kwb "BART", kwb "Muni",
    kwb "Caltrain", kwb "transit", kwb "school board", kwb "school district",
    kwb "education", kwb "public health", kw "governan", kw "legislat",
    kwb "town hall", kwb "county board", kwb "planning commission",
    kwb "tax measure", kwb "sheriff", kw "immigra", kwb "ICE", kwb "federal",
    kwb "governor", kw "congress", kwb "sales tax", kwb "staffing",
    kw "school clos", kwb "strike", kwb "sanctuary", kwb "Medi-Cal", kw "redistric" ]

/-- The THEME_KEYWORDS table, in the insertion order of the source dict. -/
def THEME_KEYWORDS : List (String × List Re) :=
  [ ("Tech & Economy", techPatterns),
    ("Housing & Displacement", housingPatterns),
    ("Climate & Environment", climatePatterns),
    ("Governance & Power", governancePatterns) ]

/-- The `NATIONAL_KEYWORDS` pattern list. -/
def NATIONAL_KEYWORDS : List Re :=
  [ cat [bdy, strCI "nation", alts [strCI "al", strCI "wide"], bdy],
    kwb "federal", kwb "Congress", kwb "White House", kwb "Supreme Court",
    kw "precedent",
    cat [bdy, strCI "first", anyRep 0 25,
         alts [strCI "nation", strCI "country", strCI "state", strCI "california"], bdy],
    cat [bdy, strCI "across", anyRep 0 15, strCI "country", bdy],
    cat [bdy, strCI "model", anyRep 0 15, alts [strCI "for", strCI "across"], bdy],
    kwb "landmark", kwb "billion", kwb "trillion",
    cat [bdy, strCI "state", optRe (strCI "wide"), spcPlus, strCI "law", bdy],
    kw "regulat", kw "immigra", kwb "sanctuary",
    cat [bdy, strCI "layoff", anyRep 0 20, repInf CC.digit 3],
    cat [bdy, rep CC.digit 1 3, optRe (strCI ","), rep CC.digit 3 3, spcPlus,
         alts [strCI "jobs", strCI "workers"], bdy],
    kwb "Amendment", kw "constitution", kwb "civil rights",
    cat [bdy, strCI "first", anyRep 0 15,
         alts [strCI "city", strCI "county", strCI "municipality"], bdy],
    kwb "pilot program",
    cat [bdy, strCI "could", anyRep 0 20,
         alts [strCI "spread", strCI "expand", strCI "replicate"], bdy],
    kwb "FEMA", kwb "NOAA", kw "funding cut",
    cat [bdy, strCI "governor", bdy, anyStar, bdy, strCI "race", bdy],
    kwb "World Cup", kwb "Super Bowl" ]

/-- The `ENTERPRISE_SIGNALS` weighted pattern list. -/
def ENTERPRISE_SIGNALS : List (Nat × Re) :=
  [ (2, kw "investigat"), (2, kwb "exclusive"),
    (2, cat [bdy, strCI "expos", Re.cls (CC.oneOf ['e', 'é'])]),
    (2, cat [bdy, strCI "uncovere", optRe (strCI "d"), bdy]),
    (2, cat [bdy, strCI "reveal", optRe (strCI "s"), bdy]),
    (2, cat [bdy, strCI "obtained", spcPlus, alts [strCI "by", strCI "through", strCI "via"], bdy]),
    (2, cat [bdy, strCI "records", spcPlus, alts [strCI "show", strCI "reveal", strCI "obtained"], bdy]),
    (2, kwb "public records"),
    (2, cat [bdy, strCI "documents", spcPlus, alts [strCI "show", strCI "reveal", strCI "obtained"], bdy]),
    (1, cat [bdy, strCI "according to", spcPlus,
             alts [strCI "records", strCI "documents", strCI "data", strCI "filings"], bdy]),
    (2, kw "accountab"), (2, kw "whistleblow"),
    (1, kwb "audit"), (1, kwb "oversight"), (1, kwb "misconduct"),
    (1, kw "allegation"), (1, kwb "fraud"), (1, kw "corrupt"),
    (1, kw "withhold"), (1, kw "transparenc"), (1, kw "nepotis"),
    (2, cat [bdy, strCI "data", spcPlus,
             alts [cat [strCI "show", optRe (strCI "s")],
                   cat [strCI "reveal", optRe (strCI "s")], strCI "analysis"], bdy]),
    (1, cat [bdy, strCI "analysis", spcPlus,
             alts [strCI "of", strCI "by", cat [strCI "show", optRe (strCI "s")],
                   cat [strCI "find", optRe (strCI "s")]], bdy]),
    (1, cat [bdy, strCI "study", spcPlus,
             alts [cat [strCI "find", optRe (strCI "s")],
                   cat [strCI "show", optRe (strCI "s")],
                   cat [strCI "rank", optRe (strCI "s")]], bdy]),
    (1, cat [bdy, strCI "rank", optRe (strCI "s"), bdy, anyStar, bdy,
             alts [strCI "least", strCI "most", strCI "worst", strCI "best",
                   strCI "first", strCI "last"], bdy]),
    (1, cat [bdy, strCI "according to", spcPlus, alts [strCI "a", strCI "an", strCI "the"],
             spcPlus, optRe (cat [strCI "new", spcPlus]),
             alts [strCI "study", strCI "report", strCI "analysis", strCI "survey"], bdy]),
    (1, kwb "in-depth"), (1, kwb "deep dive"),
    (1, cat [bdy, strCI "long", optRe (Re.cls CC.any), strCI "read", bdy]),
    (1, cat [bdy, strCI "report", optRe (strCI "ing"), spcPlus,
             alts [strCI "by", strCI "from"], bdy]),
    (1, cat [bdy, strCI "profile", optRe (Re.cls (CC.oneOf ['s', 'd'])), bdy]),
    (1, kwb "paradox"), (1, kwb "breakthrough"),
    (1, cat [bdy, strCI "why", bdy, anyStar, bdy,
             alts [strCI "are", strCI "is", strCI "do", strCI "does", strCI "did",
                   strCI "has", strCI "have", strCI "can"], bdy]),
    (1, cat [bdy, strCI "how", bdy, anyStar, bdy,
             alts [strCI "are", strCI "is", strCI "do", strCI "does", strCI "did",
                   strCI "has", strCI "have", strCI "can"], bdy]),
    (1, cat [bdy, strCI "could", bdy, anyStar, bdy,
             alts [strCI "reshape", strCI "transform", strCI "change", strCI "signal",
                   strCI "mean"], bdy]),
    (1, cat [bdy, strCI "raise", optRe (strCI "s"), spcPlus,
             alts [cat [strCI "question", optRe (strCI "s")],
                   cat [strCI "concern", optRe (strCI "s")], strCI "alarm"], bdy]),
    (1, kw "implication"),
    (1, cat [bdy, strCI "shiftin", optRe (strCI "g"), bdy, anyStar, bdy,
             alts [strCI "landscape", strCI "dynamic", strCI "equation",
                   strCI "calculus"], bdy]),
    (1, kwb "Center for Investigative"), (1, kwb "Reveal"), (1, kwb "Markup") ]

/-- The ENTERPRISE_THRESHOLD constant. -/
def ENTERPRISE_THRESHOLD : Nat := 3

/-- An input record (one entry of `stories_latest.json`), with the fields the
engine reads.  `published` is kept as the raw string, as in the source. -/
structure RawStory where
  title : String
  summary : String
  link : String
  source : String
  county : String
  published : String
deriving DecidableEq

/-- One emitted theme entry, a name together with a strength. -/
structure ThemeTag where
  name : String
  strength : Nat
deriving DecidableEq

/-- Concatenation of title and summary with a single space, as the
character list the matcher scans. -/
def combinedText (title summary : String) : List Char :=
  (title ++ " " ++ summary).data

/-- Stable insertion of `x` into `l`: `x` goes in front of the first element
`y` with `le x y`.  Processing the original list right-to-left (`sSort`),
this reproduces the stability contract of the Python list sort. -/
def sIns (le : α → α → Bool) (x : α) : List α → List α
  | [] => [x]
  | y :: ys => if le x y then x :: y :: ys else y :: sIns le x ys

/-- Stable insertion sort; model of the stable Python list sort with a `le`
test derived from the sort key (for `reverse=True` or a negated numeric key,
`le a b` is "key of `b` ≤ key of `a`"). -/
def sSort (le : α → α → Bool) : List α → List α
  | [] => []
  | x :: xs => sIns le x (sSort le xs)

/-- Model of tag_themes: per category, count the matching patterns; keep the
category with strength `min count 5` when the count is ≥ 1; stable-sort the
result by descending strength. -/
def tag_themes (title summary : String) : List ThemeTag :=
  let txt := combinedText title summary
  let themes := THEME_KEYWORDS.filterMap (fun tp =>
    let score := tp.2.countP (fun p => search p txt)
    if 1 ≤ score then some ⟨tp.1, min score 5⟩ else none)
  sSort (fun a b => decide (b.strength ≤ a.strength)) themes

/-- Model of detect_enterprise: total weight of the matching signals, and the flag
`score >= ENTERPRISE_THRESHOLD`. -/
def detect_enterprise (title summary : String) : Bool × Nat :=
  let txt := combinedText title summary
  let score := ENTERPRISE_SIGNALS.foldl
    (fun acc wp => if search wp.2 txt then acc + wp.1 else acc) 0
  (ENTERPRISE_THRESHOLD ≤ score, score)

/-- Model of score_national: +2 per matching national keyword, +1 for ≥ 2 themes,
+1 more for ≥ 3 themes, +1 when the maximal theme strength is ≥ 3, then
clamped to 10. -/
def score_national (title summary : String) (themes : List ThemeTag) : Nat :=
  let txt := combinedText title summary
  let base := NATIONAL_KEYWORDS.foldl
    (fun acc p => if search p txt then acc + 2 else acc) 0
  let s1 := if 2 ≤ themes.length then base + 1 else base
  let s2 := if 3 ≤ themes.length then s1 + 1 else s1
  let maxStrength := (themes.map ThemeTag.strength).foldr max 0
  let s3 := if 3 ≤ maxStrength then s2 + 1 else s2
  min s3 10

/-- Is `c` an ASCII lower-case letter or digit (the class `[a-z0-9]`)? -/
def isLowerAlnum (c : Char) : Bool :=
  ('a' ≤ c && c ≤ 'z') || ('0' ≤ c && c ≤ '9')

/-- Dedup key of the engine (process_digest.py line 172):
`re.sub(r"[^a-z0-9]", "", title.lower())` — lower-case, then drop every
character outside `[a-z0-9]`.  No truncation. -/
def normTitle (t : String) : List Char :=
  (t.data.map asciiLower).filter isLowerAlnum

/-- The acquisition-stage dedup key (`fetch_rss.py` line 223): the same
normalization followed by `[:60]`. -/
def normTitleFetch (t : String) : List Char :=
  ((t.data.map asciiLower).filter isLowerAlnum).take 60

/-- The dedup loop of `process_stories`: keep a story iff its normalized
title key is not in the `seen_titles` set, adding kept keys to the set. -/
def dedup (seen : List (List Char)) : List RawStory → List RawStory
  | [] => []
  | s :: ss =>
      if normTitle s.title ∈ seen then dedup seen ss
      else s :: dedup (normTitle s.title :: seen) ss

/-- The decimal digit denoted by `c`, if any. -/
def toDigit (c : Char) : Option Int :=
  if '0' ≤ c && c ≤ '9' then some ((c.toNat : Int) - 48) else none

/-- Two-digit decimal number. -/
def dig2 (a b : Char) : Option Int := do
  let x ← toDigit a
  let y ← toDigit b
  pure (10 * x + y)

/-- Days between 1970-01-01 and the civil date `y-m-d` in the proleptic
Gregorian calendar (the standard days-from-civil computation that underlies
the epoch arithmetic of datetime). -/
def daysFromCivil (y m d : Int) : Int :=
  let y2 := if m ≤ 2 then y - 1 else y
  let era := (if 0 ≤ y2 then y2 else y2 - 399) / 400
  let yoe := y2 - era * 400
  let mp := (m + 9) % 12
  let doy := (153 * mp + 2) / 5 + d - 1
  let doe := yoe * 365 + yoe / 4 - yoe / 100 + doy
  era * 146097 + doe - 719468

/-- Modelled from the Python standard library: `datetime.fromisoformat` on an
offset-aware ISO-8601 string `YYYY-MM-DDTHH:MM:SS±HH:MM`, returned as epoch
seconds (UTC).  Strings outside this shape count as unparseable, which in the
engine triggers the fallback-to-now branch. -/
def parseISO8601 : List Char → Option ℚ
  | [y1, y2, y3, y4, h1, m1, m2, h2, d1, d2, t1, hh1, hh2, c1, n1, n2, c2,
     s1, s2, sg, o1, o2, c3, p1, p2] =>
      if h1 = '-' && h2 = '-' && t1 = 'T' && c1 = ':' && c2 = ':' && c3 = ':'
          && (sg = '+' || sg = '-') then
        match dig2 y1 y2, dig2 y3 y4, dig2 m1 m2, dig2 d1 d2, dig2 hh1 hh2,
              dig2 n1 n2, dig2 s1 s2, dig2 o1 o2, dig2 p1 p2 with
        | some yh, some yl, some mo, some da, some hh, some mi, some ss,
          some oh, some om =>
            let off0 := oh * 3600 + om * 60
            let off := if sg = '-' then -off0 else off0
            some (((daysFromCivil (yh * 100 + yl) mo da) * 86400
                    + hh * 3600 + mi * 60 + ss - off : Int) : ℚ)
        | _, _, _, _, _, _, _, _, _ => none
      else none
  | _ => none

/-- Replacement step of the timestamp parse: every letter Z becomes the
six characters of the zero UTC offset. -/
def replaceZ : List Char → List Char
  | [] => []
  | c :: cs =>
      if c = 'Z' then '+' :: '0' :: '0' :: ':' :: '0' :: '0' :: replaceZ cs
      else c :: replaceZ cs

/-- Timestamp handling of the engine: replace Z by the zero offset, then
ISO-8601 parsing; `none` models the caught `ValueError`/`AttributeError`. -/
def parsePublished (s : String) : Option ℚ :=
  parseISO8601 (replaceZ s.data)

/-- Round half to even at integer precision; decimal model of the Python
built-in round at the score magnitudes of the engine. -/
def rnd (x : ℚ) : Int :=
  if x - x.floor < 1 / 2 then x.floor
  else if 1 / 2 < x - x.floor then x.floor + 1
  else if x.floor % 2 = 0 then x.floor else x.floor + 1

/-- Rounding to two decimal places. -/
def round2 (x : ℚ) : ℚ := (rnd (x * 100) : ℚ) / 100

/-- Rounding to one decimal place. -/
def round1 (x : ℚ) : ℚ := (rnd (x * 10) : ℚ) / 10

/-- One emitted story record.  The `id` field models the stdlib
`hashlib.md5(title + link)` digest by its preimage, since no property of the
engine depends on the hash value itself. -/
structure ProcessedStory where
  id : String
  title : String
  summary : String
  link : String
  source : String
  county : String
  published : String
  themes : List ThemeTag
  nationalSignificance : Nat
  isEnterprise : Bool
  ageDays : ℚ
  rankScore : ℚ
deriving DecidableEq

/-- The per-story body of the `process_stories` loop, with the `now` run
instant (epoch seconds, UTC) made an explicit parameter. -/
def processStory (now : ℚ) (s : RawStory) : ProcessedStory :=
  let themes := tag_themes s.title s.summary
  let natScore0 := score_national s.title s.summary themes
  let ent := detect_enterprise s.title s.summary
  let natScore := if ent.1 then min (natScore0 + 2) 10 else natScore0
  let pub := (parsePublished s.published).getD now
  let ageDays := max 0 ((now - pub) / 86400)
  let penalty : ℚ := if 2 < ageDays then min ((ageDays - 2) * (1 / 2)) 3 else 0
  let rank := (natScore : ℚ) - penalty
  { id := s.title ++ s.link, title := s.title, summary := s.summary,
    link := s.link, source := s.source, county := s.county,
    published := s.published, themes := themes,
    nationalSignificance := natScore, isEnterprise := ent.1,
    ageDays := round1 ageDays, rankScore := round2 rank }

/-- Model of process_stories: dedup in input order, process each survivor, then the
two stable sorts — first by `published` (string comparison) descending, then
by `rankScore` descending. -/
def process_stories (now : ℚ) (stories : List RawStory) : List ProcessedStory :=
  let processed := (dedup [] stories).map (processStory now)
  let byPub := sSort (fun a b => decide (b.published ≤ a.published)) processed
  sSort (fun a b => decide (b.rankScore ≤ a.rankScore)) byPub

/-- Reference description of "first occurrences": keep the head, then keep
the first occurrences of the tail purged of the key of the head. -/
def firstOccs : List RawStory → List RawStory
  | [] => []
  | s :: ss =>
      s :: firstOccs (ss.filter (fun t => decide (normTitle t.title ≠ normTitle s.title)))
termination_by l => l.length
decreasing_by
  simp only [List.length_cons]
  have := List.length_filter_le
    (fun t => decide (normTitle t.title ≠ normTitle s.title)) ss
  omega

/-- The recency penalty of `processStory`, as a standalone function for
stating its properties. -/
def recencyPenalty (ageDays : ℚ) : ℚ :=
  if 2 < ageDays then min ((ageDays - 2) * (1 / 2)) 3 else 0

/-- A concrete story for the C10 witness. -/
def wStory : RawStory := RawStory.mk "w" "x" "l" "s" "c" ""

/-- A concrete story with a parseable timestamp (2026-01-01, epoch second
1767225600) for the C6 witness; the run instant is 10 days later. -/
def wStory6 : RawStory :=
  RawStory.mk "w6" "x" "l" "s" "c" "2026-01-01T00:00:00+00:00"

/-- The C6 witness run instant: 10 days after the publication of `wStory6`. -/
def wNow6 : ℚ := ((1768089600 : Int) : ℚ)

/-- The C6 witness publication instant (2026-01-01T00:00:00 UTC). -/
def wPub6 : ℚ := ((1767225600 : Int) : ℚ)

/-- A concrete story with an unparseable timestamp for the C8 witness. -/
def wStory8 : RawStory := RawStory.mk "w8" "x" "l" "s" "c" "not-a-date"

/-- The position of a category name in the fixed `THEME_KEYWORDS`
enumeration order. -/
def catIdx (n : String) : Nat := (THEME_KEYWORDS.map Prod.fst).indexOf n

/-- First story of the C7 counterexample batch (older). -/
def cexA : RawStory := RawStory.mk "zzz" "qqq" "la" "sa" "ca" "2020-01-01T00:00:00+00:00"

/-- Second story of the C7 counterexample batch (newer, equal rankScore). -/
def cexB : RawStory := RawStory.mk "yyy" "qqq" "lb" "sb" "cb" "2021-01-01T00:00:00+00:00"

/-- The C7 counterexample run instant (2026-01-01 UTC): both stories are
years old, so both take the capped penalty and tie on rankScore. -/
def cexNow : ℚ := ((1767225600 : Int) : ℚ)

/-! ### Properties of the stable insertion sort -/

theorem mem_sIns {le : α → α → Bool} {x a : α} :
    ∀ {l : List α}, a ∈ sIns le x l ↔ a = x ∨ a ∈ l := by
  intro l
  induction l with
  | nil => simp [sIns]
  | cons y ys ih => by_cases h : le x y <;> simp [sIns, h, ih] <;> tauto

theorem perm_sIns (le : α → α → Bool) (x : α) :
    ∀ (l : List α), (sIns le x l).Perm (x :: l) := by
  intro l
  induction l with
  | nil => simp [sIns]
  | cons y ys ih =>
      by_cases h : le x y
      · simp [sIns, h]
      · simpa [sIns, h] using (ih.cons y).trans (List.Perm.swap x y ys)

theorem perm_sSort (le : α → α → Bool) :
    ∀ (l : List α), (sSort le l).Perm l := by
  intro l
  induction l with
  | nil => simp [sSort]
  | cons x xs ih =>
      simpa [sSort] using (perm_sIns le x (sSort le xs)).trans (ih.cons x)

theorem mem_sSort {le : α → α → Bool} {a : α} {l : List α} :
    a ∈ sSort le l ↔ a ∈ l :=
  (perm_sSort le l).mem_iff

/-- Stability of the insertion sort, phrased as the invariant needed for the
two-pass ordering of the engine: if `x` is inserted into a list whose pairs
already satisfy `R` and every element of which is `q`-related to `x` (it came
later in the original input), all pairs of the result satisfy `R`. -/
theorem pairwise_sIns {le : α → α → Bool} {R q : α → α → Prop}
    (hLeTrans : ∀ a b c, le a b = true → le b c = true → le a c = true)
    (hRle : ∀ a b, R a b → le a b = true)
    (hStrict : ∀ a b, le b a = false → R a b)
    (hTie : ∀ a b, le a b = true → le b a = true → q b a → R a b)
    (x : α) :
    ∀ {l : List α}, l.Pairwise R → (∀ y ∈ l, q y x) →
      (sIns le x l).Pairwise R := by
  intro l
  induction l with
  | nil => intro _ _; simp [sIns]
  | cons y ys ih =>
      intro hp haux
      rw [List.pairwise_cons] at hp
      obtain ⟨hy, hys⟩ := hp
      by_cases h : le x y
      · have hxy : R x y := by
          by_cases h2 : le y x
          · exact hTie x y h h2 (haux y (by simp))
          · exact hStrict x y (by simpa using h2)
        have hxz : ∀ z ∈ ys, R x z := by
          intro z hz
          have hlxz := hLeTrans x y z h (hRle y z (hy z hz))
          by_cases h3 : le z x
          · exact hTie x z hlxz h3 (haux z (by simp [hz]))
          · exact hStrict x z (by simpa using h3)
        rw [sIns, if_pos h, List.pairwise_cons]
        refine ⟨?_, by rw [List.pairwise_cons]; exact ⟨hy, hys⟩⟩
        intro a ha
        rcases List.mem_cons.1 ha with rfl | ha2
        · exact hxy
        · exact hxz a ha2
      · have h' : le x y = false := by simpa using h
        rw [sIns, if_neg h, List.pairwise_cons]
        constructor
        · intro a ha
          rcases mem_sIns.1 ha with rfl | ha2
          · exact hStrict y a h'
          · exact hy a ha2
        · exact ih hys (fun z hz => haux z (by simp [hz]))

theorem pairwise_sSort {le : α → α → Bool} {R q : α → α → Prop}
    (hLeTrans : ∀ a b c, le a b = true → le b c = true → le a c = true)
    (hRle : ∀ a b, R a b → le a b = true)
    (hStrict : ∀ a b, le b a = false → R a b)
    (hTie : ∀ a b, le a b = true → le b a = true → q b a → R a b) :
    ∀ {l : List α}, l.Pairwise (fun a b => q b a) →
      (sSort le l).Pairwise R := by
  intro l
  induction l with
  | nil => intro _; simp [sSort]
  | cons x xs ih =>
      intro hp
      rw [List.pairwise_cons] at hp
      exact pairwise_sIns hLeTrans hRle hStrict hTie x (ih hp.2)
        (fun y hy => hp.1 y (mem_sSort.1 hy))

/-! ### Fold/count identities for the scoring loops -/

theorem foldl_two_eq_countP (txt : List Char) :
    ∀ (l : List Re) (init : Nat),
      l.foldl (fun acc p => if search p txt then acc + 2 else acc) init
        = init + 2 * l.countP (fun p => search p txt) := by
  intro l
  induction l with
  | nil => intro init; simp
  | cons p ps ih =>
      intro init
      by_cases h : search p txt <;>
        simp [List.foldl_cons, List.countP_cons, h, ih] <;> omega

theorem foldl_weight_eq_sum (txt : List Char) :
    ∀ (l : List (Nat × Re)) (init : Nat),
      l.foldl (fun acc wp => if search wp.2 txt then acc + wp.1 else acc) init
        = init + ((l.filter (fun wp => search wp.2 txt)).map Prod.fst).sum := by
  intro l
  induction l with
  | nil => intro init; simp
  | cons p ps ih =>
      intro init
      by_cases h : search p.2 txt <;>
        simp [List.foldl_cons, List.filter_cons, h, ih] <;> omega

/-! ### The dedup stage keeps exactly the first occurrences -/

theorem dedup_eq_firstOccs_filter :
    ∀ (l : List RawStory) (seen : List (List Char)),
      dedup seen l = firstOccs (l.filter (fun t => decide (normTitle t.title ∉ seen))) := by
  intro l
  induction l with
  | nil => intro seen; simp [dedup, firstOccs]
  | cons s ss ih =>
      intro seen
      by_cases h : normTitle s.title ∈ seen
      · have hf : (s :: ss).filter (fun t => decide (normTitle t.title ∉ seen))
            = ss.filter (fun t => decide (normTitle t.title ∉ seen)) := by
          simp [List.filter_cons, h]
        rw [dedup, if_pos h, hf]
        exact ih seen
      · have hf : (s :: ss).filter (fun t => decide (normTitle t.title ∉ seen))
            = s :: ss.filter (fun t => decide (normTitle t.title ∉ seen)) := by
          simp [List.filter_cons, h]
        rw [dedup, if_neg h, hf, firstOccs, ih (normTitle s.title :: seen)]
        congr 1
        rw [List.filter_filter]
        congr 1
        apply List.filter_congr
        intro t _
        by_cases h1 : normTitle t.title = normTitle s.title <;>
          by_cases h2 : normTitle t.title ∈ seen <;> simp [h1, h2]

theorem dedup_nil_eq_firstOccs (l : List RawStory) : dedup [] l = firstOccs l := by
  rw [dedup_eq_firstOccs_filter l []]
  congr 1
  apply List.filter_eq_self.2
  intro t _
  simp

theorem firstOccs_sublist : ∀ (l : List RawStory), (firstOccs l).Sublist l := by
  intro l
  induction l using firstOccs.induct with
  | case1 => rw [firstOccs]
  | case2 s ss ih =>
      rw [firstOccs]
      exact (ih.trans (List.filter_sublist ss)).cons₂ s

theorem nodup_keys_firstOccs :
    ∀ (l : List RawStory),
      ((firstOccs l).map (fun s => normTitle s.title)).Nodup := by
  intro l
  induction l using firstOccs.induct with
  | case1 => rw [firstOccs]; simp
  | case2 s ss ih =>
      rw [firstOccs]
      simp only [List.map_cons, List.nodup_cons]
      refine ⟨?_, ih⟩
      intro hmem
      obtain ⟨t, ht, hkey⟩ := List.mem_map.1 hmem
      have htf := (firstOccs_sublist _).subset ht
      have := (List.mem_filter.1 htf).2
      simp only [decide_eq_true_eq] at this
      exact this hkey

theorem firstOccs_covers :
    ∀ (l : List RawStory) (s : RawStory), s ∈ l →
      ∃ t ∈ firstOccs l, normTitle t.title = normTitle s.title := by
  intro l
  induction l using firstOccs.induct with
  | case1 => intro s hs; cases hs
  | case2 s0 ss ih =>
      intro s hs
      have hfo : firstOccs (s0 :: ss) = s0 :: firstOccs
          (ss.filter (fun t => decide (normTitle t.title ≠ normTitle s0.title))) := by
        rw [firstOccs]
      rcases List.mem_cons.1 hs with rfl | hs2
      · exact ⟨s, by rw [hfo]; exact List.mem_cons_self _ _, rfl⟩
      · by_cases hk : normTitle s.title = normTitle s0.title
        · exact ⟨s0, by rw [hfo]; exact List.mem_cons_self _ _, hk.symm⟩
        · have hsf : s ∈ ss.filter
              (fun t => decide (normTitle t.title ≠ normTitle s0.title)) := by
            rw [List.mem_filter]
            exact ⟨hs2, by simpa using hk⟩
          obtain ⟨t, ht, hkey⟩ := ih s hsf
          exact ⟨t, by rw [hfo]; exact List.mem_cons_of_mem _ ht, hkey⟩

theorem dedup_eq_self_of_nodup_keys :
    ∀ (l : List RawStory) (seen : List (List Char)),
      (∀ t ∈ l, normTitle t.title ∉ seen) →
      ((l.map (fun s => normTitle s.title)).Nodup) →
      dedup seen l = l := by
  intro l
  induction l with
  | nil => intro seen _ _; rfl
  | cons s ss ih =>
      intro seen hseen hnd
      simp only [List.map_cons, List.nodup_cons] at hnd
      rw [dedup, if_neg (hseen s (by simp))]
      congr 1
      apply ih
      · intro t ht
        rw [List.mem_cons]
        rintro (heq | hmem)
        · exact hnd.1 (List.mem_map.2 ⟨t, ht, heq⟩)
        · exact hseen t (by simp [ht]) hmem
      · exact hnd.2

/-! ### Rounding and score bounds -/

theorem rat_floor_eq_intFloor (x : ℚ) : x.floor = ⌊x⌋ := by
  rw [Rat.floor_def', Rat.floor_def]

theorem rnd_bounds (x : ℚ) : x - 1 / 2 ≤ (rnd x : ℚ) ∧ (rnd x : ℚ) ≤ x + 1 / 2 := by
  have h1 : ((⌊x⌋ : ℚ)) ≤ x := Int.floor_le x
  have h2 : x < (⌊x⌋ : ℚ) + 1 := Int.lt_floor_add_one x
  unfold rnd
  rw [rat_floor_eq_intFloor]
  split_ifs with ha hb hc <;> constructor <;> push_cast <;> linarith

theorem round2_bounds {x : ℚ} (hlo : -3 ≤ x) (hhi : x ≤ 10) :
    -3 ≤ round2 x ∧ round2 x ≤ 10 := by
  obtain ⟨hl, hr⟩ := rnd_bounds (x * 100)
  have hup : rnd (x * 100) ≤ 1000 := by
    by_contra hcon
    push_neg at hcon
    have : ((1001 : Int) : ℚ) ≤ (rnd (x * 100) : ℚ) := by
      exact_mod_cast hcon
    push_cast at this
    linarith
  have hdn : -300 ≤ rnd (x * 100) := by
    by_contra hcon
    push_neg at hcon
    have h301 : rnd (x * 100) ≤ -301 := by omega
    have : ((rnd (x * 100) : Int) : ℚ) ≤ ((-301 : Int) : ℚ) := by
      exact_mod_cast h301
    push_cast at this
    linarith
  unfold round2
  constructor
  · have : ((-300 : Int) : ℚ) ≤ (rnd (x * 100) : ℚ) := by exact_mod_cast hdn
    push_cast at this
    linarith
  · have : ((rnd (x * 100) : Int) : ℚ) ≤ ((1000 : Int) : ℚ) := by exact_mod_cast hup
    push_cast at this
    linarith

theorem score_national_le_ten (title summary : String) (themes : List ThemeTag) :
    score_national title summary themes ≤ 10 := by
  unfold score_national
  exact min_le_right _ _

theorem processStory_nat_le_ten (now : ℚ) (s : RawStory) :
    (processStory now s).nationalSignificance ≤ 10 := by
  unfold processStory
  by_cases h : (detect_enterprise s.title s.summary).1 <;>
    simp only [h, if_true, if_false]
  · exact min_le_right _ _
  · exact score_national_le_ten _ _ _

theorem recencyPenalty_bounds (a : ℚ) :
    0 ≤ recencyPenalty a ∧ recencyPenalty a ≤ 3 := by
  unfold recencyPenalty
  split_ifs with h
  · constructor
    · apply le_min <;> linarith
    · exact min_le_right _ _
  · norm_num

theorem recencyPenalty_eq_three {a : ℚ} (h : 8 ≤ a) : recencyPenalty a = 3 := by
  unfold recencyPenalty
  rw [if_pos (by linarith)]
  apply min_eq_right
  linarith

/-- The rank score of `processStory` in terms of `recencyPenalty`. -/
theorem processStory_rankScore (now : ℚ) (s : RawStory) :
    (processStory now s).rankScore
      = round2 (((processStory now s).nationalSignificance : ℚ)
          - recencyPenalty (max 0 ((now - (parsePublished s.published).getD now) / 86400))) := by
  rfl

theorem processStory_ageDays (now : ℚ) (s : RawStory) :
    (processStory now s).ageDays
      = round1 (max 0 ((now - (parsePublished s.published).getD now) / 86400)) := by
  rfl

theorem mem_process_stories {now : ℚ} {stories : List RawStory} {p : ProcessedStory} :
    p ∈ process_stories now stories ↔ p ∈ (dedup [] stories).map (processStory now) := by
  unfold process_stories
  rw [mem_sSort, mem_sSort]

/-! ### The claims -/

/-- C4: `detect_enterprise` returns as score the sum of the weights of the
`ENTERPRISE_SIGNALS` patterns matching the case-insensitive concatenation of
title and summary, each pattern contributing its weight at most once, and the
flag is set iff that score is at least 3. -/
theorem claim_C4 (title summary : String) :
    (detect_enterprise title summary).2
      = ((ENTERPRISE_SIGNALS.filter
          (fun wp => search wp.2 (combinedText title summary))).map Prod.fst).sum
    ∧ ((detect_enterprise title summary).1 = true
        ↔ 3 ≤ (detect_enterprise title summary).2) := by
  unfold detect_enterprise
  refine ⟨?_, ?_⟩
  · simpa using foldl_weight_eq_sum (combinedText title summary) ENTERPRISE_SIGNALS 0
  · simp [ENTERPRISE_THRESHOLD]

/-- C3: the emitted `nationalSignificance` is the clamped base score
`min (2·#matching national keywords + theme bonuses) 10`, boosted by 2 and
re-clamped to 10 exactly when the enterprise flag is set; it never exceeds
10. -/
theorem claim_C3 (now : ℚ) (s : RawStory) :
    (let themes := tag_themes s.title s.summary
     let cnt := NATIONAL_KEYWORDS.countP
       (fun p => search p (combinedText s.title s.summary))
     let base := min (2 * cnt
       + (if 2 ≤ themes.length then 1 else 0)
       + (if 3 ≤ themes.length then 1 else 0)
       + (if 3 ≤ (themes.map ThemeTag.strength).foldr max 0 then 1 else 0)) 10
     (processStory now s).nationalSignificance
       = (if (detect_enterprise s.title s.summary).1
          then min (base + 2) 10 else base))
    ∧ (processStory now s).nationalSignificance ≤ 10 := by
  refine ⟨?_, processStory_nat_le_ten now s⟩
  show (if (detect_enterprise s.title s.summary).1
        then min (score_national s.title s.summary (tag_themes s.title s.summary) + 2) 10
        else score_national s.title s.summary (tag_themes s.title s.summary)) = _
  have hbase : score_national s.title s.summary (tag_themes s.title s.summary)
      = min (2 * NATIONAL_KEYWORDS.countP
              (fun p => search p (combinedText s.title s.summary))
          + (if 2 ≤ (tag_themes s.title s.summary).length then 1 else 0)
          + (if 3 ≤ (tag_themes s.title s.summary).length then 1 else 0)
          + (if 3 ≤ ((tag_themes s.title s.summary).map ThemeTag.strength).foldr max 0
             then 1 else 0)) 10 := by
    simp only [score_national]
    rw [foldl_two_eq_countP]
    by_cases h2 : 2 ≤ (tag_themes s.title s.summary).length <;>
      by_cases h3 : 3 ≤ (tag_themes s.title s.summary).length <;>
        by_cases hm : 3 ≤ ((tag_themes s.title s.summary).map ThemeTag.strength).foldr max 0 <;>
          simp only [h2, h3, hm, if_true, if_false] <;> (congr 1; omega)
  rw [hbase]

/-- C9: the dedup stage is idempotent — filtering its own output again
changes nothing. -/
theorem claim_C9 (l : List RawStory) : dedup [] (dedup [] l) = dedup [] l := by
  rw [dedup_nil_eq_firstOccs l]
  apply dedup_eq_self_of_nodup_keys
  · intro t _
    simp
  · exact nodup_keys_firstOccs l

/-- C10: every emitted `rankScore` lies in the interval `[-3, 10]`. -/
theorem claim_C10 (now : ℚ) (stories : List RawStory) (p : ProcessedStory)
    (hp : p ∈ process_stories now stories) :
    -3 ≤ p.rankScore ∧ p.rankScore ≤ 10 := by
  rw [mem_process_stories] at hp
  obtain ⟨s, _, rfl⟩ := List.mem_map.1 hp
  rw [processStory_rankScore]
  obtain ⟨hp0, hp3⟩ := recencyPenalty_bounds
    (max 0 ((now - (parsePublished s.published).getD now) / 86400))
  have hnat := processStory_nat_le_ten now s
  have hnatQ : ((processStory now s).nationalSignificance : ℚ) ≤ 10 := by
    exact_mod_cast hnat
  have hnat0 : (0 : ℚ) ≤ ((processStory now s).nationalSignificance : ℚ) := by
    positivity
  apply round2_bounds <;> linarith

theorem claim_C10_witness :
    -3 ≤ (processStory 0 wStory).rankScore ∧ (processStory 0 wStory).rankScore ≤ 10 :=
  claim_C10 0 [wStory] (processStory 0 wStory) (by with_unfolding_all decide)

/-- C2 counterexample: on a title of 61 letters the normalized key of the engine
keeps all 61 characters — it is not truncated to 60 — and therefore
differs from the acquisition-stage key of the same title. -/
theorem claim_C2_counterexample :
    (normTitle (String.mk (List.replicate 61 'a'))).length = 61
    ∧ normTitle (String.mk (List.replicate 61 'a'))
        ≠ normTitleFetch (String.mk (List.replicate 61 'a')) := by
  decide

/-- C2 amended: the engine key lowercases and strips non-alphanumerics
without truncating; the acquisition-stage key is exactly its first 60
characters, so the two normalizations agree precisely on titles whose
stripped form has at most 60 characters; the engine treats two stories as
duplicates iff their (untruncated) keys are equal. -/
theorem claim_C2_amended (t : String) (a b : RawStory) :
    normTitleFetch t = (normTitle t).take 60
    ∧ ((normTitle t).length ≤ 60 → normTitleFetch t = normTitle t)
    ∧ dedup [] [a, b]
        = (if normTitle b.title = normTitle a.title then [a] else [a, b]) := by
  refine ⟨rfl, ?_, ?_⟩
  · intro h
    exact List.take_of_length_le h
  · by_cases h : normTitle b.title = normTitle a.title <;> simp [dedup, h]

/-- C6: with a parseable timestamp, the age in days is
`max 0 ((now − published)/86400)`; the recency penalty is 0 up to 2 days and
`min ((age − 2)/2) 3` beyond, hence always within `[0, 3]` and equal to 3
from 8 days on; the emitted `ageDays` and `rankScore` are the rounded age
and the rounded difference `nationalSignificance − penalty`; a story
published exactly 10 days before `now` has age 10 and penalty 3. -/
theorem claim_C6 (now pub : ℚ) (s : RawStory)
    (h : parsePublished s.published = some pub) :
    (max 0 ((now - pub) / 86400) ≤ 2 →
        recencyPenalty (max 0 ((now - pub) / 86400)) = 0)
    ∧ (2 < max 0 ((now - pub) / 86400) →
        recencyPenalty (max 0 ((now - pub) / 86400))
          = min ((max 0 ((now - pub) / 86400) - 2) * (1 / 2)) 3)
    ∧ 0 ≤ recencyPenalty (max 0 ((now - pub) / 86400))
    ∧ recencyPenalty (max 0 ((now - pub) / 86400)) ≤ 3
    ∧ (8 ≤ max 0 ((now - pub) / 86400) →
        recencyPenalty (max 0 ((now - pub) / 86400)) = 3)
    ∧ (processStory now s).ageDays = round1 (max 0 ((now - pub) / 86400))
    ∧ (processStory now s).rankScore
        = round2 (((processStory now s).nationalSignificance : ℚ)
            - recencyPenalty (max 0 ((now - pub) / 86400)))
    ∧ (now - pub = 10 * 86400 →
        max 0 ((now - pub) / 86400) = 10
        ∧ recencyPenalty (max 0 ((now - pub) / 86400)) = 3) := by
  have hgetD : (parsePublished s.published).getD now = pub := by rw [h]; rfl
  refine ⟨?_, ?_, (recencyPenalty_bounds _).1, (recencyPenalty_bounds _).2,
    fun h8 => recencyPenalty_eq_three h8, ?_, ?_, ?_⟩
  · intro hle
    unfold recencyPenalty
    rw [if_neg (not_lt.2 hle)]
  · intro hlt
    unfold recencyPenalty
    rw [if_pos hlt]
  · rw [processStory_ageDays, hgetD]
  · rw [processStory_rankScore, hgetD]
  · intro h10
    have hdiv : (now - pub) / 86400 = 10 := by rw [h10]; norm_num
    have hmax : max 0 ((now - pub) / 86400) = 10 := by
      rw [hdiv]
      exact max_eq_right (by norm_num)
    refine ⟨hmax, ?_⟩
    rw [hmax]
    exact recencyPenalty_eq_three (by norm_num)

theorem claim_C6_witness :
    parsePublished wStory6.published = some wPub6
    ∧ ((max 0 ((wNow6 - wPub6) / 86400) ≤ 2 →
          recencyPenalty (max 0 ((wNow6 - wPub6) / 86400)) = 0)
      ∧ (2 < max 0 ((wNow6 - wPub6) / 86400) →
          recencyPenalty (max 0 ((wNow6 - wPub6) / 86400))
            = min ((max 0 ((wNow6 - wPub6) / 86400) - 2) * (1 / 2)) 3)
      ∧ 0 ≤ recencyPenalty (max 0 ((wNow6 - wPub6) / 86400))
      ∧ recencyPenalty (max 0 ((wNow6 - wPub6) / 86400)) ≤ 3
      ∧ (8 ≤ max 0 ((wNow6 - wPub6) / 86400) →
          recencyPenalty (max 0 ((wNow6 - wPub6) / 86400)) = 3)
      ∧ (processStory wNow6 wStory6).ageDays
          = round1 (max 0 ((wNow6 - wPub6) / 86400))
      ∧ (processStory wNow6 wStory6).rankScore
          = round2 (((processStory wNow6 wStory6).nationalSignificance : ℚ)
              - recencyPenalty (max 0 ((wNow6 - wPub6) / 86400)))
      ∧ (wNow6 - wPub6 = 10 * 86400 →
          max 0 ((wNow6 - wPub6) / 86400) = 10
          ∧ recencyPenalty (max 0 ((wNow6 - wPub6) / 86400)) = 3)) :=
  ⟨by decide, claim_C6 wNow6 wPub6 wStory6 (by decide)⟩

/-- C8: a story whose `published` string does not parse is not dropped and
does not fail the batch: it is treated as published at `now`, its emitted
`ageDays` is 0, its `rankScore` is the rounded national significance with no
penalty, and (when it survives dedup) it still appears in the output. -/
theorem claim_C8 (now : ℚ) (s : RawStory) (h : parsePublished s.published = none)
    (stories : List RawStory) (hmem : s ∈ dedup [] stories) :
    (processStory now s).ageDays = 0
    ∧ (processStory now s).rankScore
        = round2 ((processStory now s).nationalSignificance : ℚ)
    ∧ processStory now s ∈ process_stories now stories := by
  have hgetD : (parsePublished s.published).getD now = now := by rw [h]; rfl
  have hage : max 0 ((now - now) / 86400) = (0 : ℚ) := by norm_num
  have hpen : recencyPenalty 0 = 0 := by
    unfold recencyPenalty
    rw [if_neg (by norm_num)]
  have hrnd1 : round1 0 = 0 := by with_unfolding_all rfl
  refine ⟨?_, ?_, ?_⟩
  · rw [processStory_ageDays, hgetD, hage, hrnd1]
  · rw [processStory_rankScore, hgetD, hage, hpen, sub_zero]
  · rw [mem_process_stories]
    exact List.mem_map_of_mem _ hmem

theorem pairwise_filterMap {α β : Type _} {f : α → Option β} {R : α → α → Prop}
    {S : β → β → Prop}
    (hf : ∀ a b x y, R a b → f a = some x → f b = some y → S x y) :
    ∀ {l : List α}, l.Pairwise R → (l.filterMap f).Pairwise S := by
  intro l
  induction l with
  | nil => intro _; simp
  | cons a as ih =>
      intro hp
      rw [List.pairwise_cons] at hp
      cases hfa : f a with
      | none => simpa [List.filterMap_cons, hfa] using ih hp.2
      | some x =>
          simp only [List.filterMap_cons, hfa]
          rw [List.pairwise_cons]
          refine ⟨?_, ih hp.2⟩
          intro y hy
          obtain ⟨b, hb, hfb⟩ := List.mem_filterMap.1 hy
          exact hf a b x y (hp.1 b hb) hfa hfb

theorem theme_names_nodup : (THEME_KEYWORDS.map Prod.fst).Nodup := by decide

theorem theme_idx_pairwise :
    THEME_KEYWORDS.Pairwise (fun e1 e2 => catIdx e1.1 < catIdx e2.1) := by decide

/-- C5: `tag_themes` emits, per category of the fixed table, a tag of
strength `min (#matching patterns) 5`, includes a category iff at least one
of its patterns matches, keeps every strength in `[1, 5]`, and orders the
tags by descending strength with ties resolved by the position of the category
in the enumeration order. -/
theorem claim_C5 (title summary : String) :
    (∀ t ∈ tag_themes title summary, 1 ≤ t.strength ∧ t.strength ≤ 5)
    ∧ (∀ e ∈ THEME_KEYWORDS,
        ((∃ t ∈ tag_themes title summary, t.name = e.1)
          ↔ 1 ≤ e.2.countP (fun p => search p (combinedText title summary))))
    ∧ (∀ t ∈ tag_themes title summary, ∃ e ∈ THEME_KEYWORDS,
        t.name = e.1
        ∧ t.strength
            = min (e.2.countP (fun p => search p (combinedText title summary))) 5)
    ∧ List.Chain' (fun a b => a.strength > b.strength
        ∨ (a.strength = b.strength ∧ catIdx a.name < catIdx b.name))
      (tag_themes title summary) := by
  have htt : tag_themes title summary
      = sSort (fun a b => decide (b.strength ≤ a.strength))
          (THEME_KEYWORDS.filterMap (fun tp =>
            if 1 ≤ tp.2.countP (fun p => search p (combinedText title summary))
            then some ⟨tp.1,
              min (tp.2.countP (fun p => search p (combinedText title summary))) 5⟩
            else none)) := rfl
  have hmem : ∀ t, t ∈ tag_themes title summary ↔
      ∃ e ∈ THEME_KEYWORDS,
        1 ≤ e.2.countP (fun p => search p (combinedText title summary))
        ∧ t = ⟨e.1,
            min (e.2.countP (fun p => search p (combinedText title summary))) 5⟩ := by
    intro t
    rw [htt, mem_sSort, List.mem_filterMap]
    constructor
    · rintro ⟨e, he, hfe⟩
      by_cases hc : 1 ≤ e.2.countP (fun p => search p (combinedText title summary))
      · rw [if_pos hc] at hfe
        exact ⟨e, he, hc, (Option.some.inj hfe).symm⟩
      · rw [if_neg hc] at hfe
        cases hfe
    · rintro ⟨e, he, hc, rfl⟩
      exact ⟨e, he, by rw [if_pos hc]⟩
  refine ⟨?_, ?_, ?_, ?_⟩
  · intro t ht
    obtain ⟨e, he, hc, rfl⟩ := (hmem t).1 ht
    exact ⟨le_min hc (by norm_num), min_le_right _ _⟩
  · intro e he
    constructor
    · rintro ⟨t, ht, hname⟩
      obtain ⟨e2, he2, hc2, rfl⟩ := (hmem t).1 ht
      have he2e : e2 = e := List.inj_on_of_nodup_map theme_names_nodup he2 he hname
      rwa [← he2e]
    · intro hc
      exact ⟨⟨e.1, min (e.2.countP (fun p => search p (combinedText title summary))) 5⟩,
        (hmem _).2 ⟨e, he, hc, rfl⟩, rfl⟩
  · intro t ht
    obtain ⟨e, he, hc, rfl⟩ := (hmem t).1 ht
    exact ⟨e, he, rfl, rfl⟩
  · apply List.Pairwise.chain'
    rw [htt]
    apply pairwise_sSort (q := fun y x => catIdx x.name < catIdx y.name)
    · intro a b c h1 h2
      simp only [decide_eq_true_eq] at h1 h2 ⊢
      omega
    · intro a b hab
      simp only [decide_eq_true_eq]
      rcases hab with hlt | ⟨heq, _⟩
      · omega
      · omega
    · intro a b hfalse
      left
      have : ¬ (a.strength ≤ b.strength) := by simpa using hfalse
      omega
    · intro a b h1 h2 haux
      simp only [decide_eq_true_eq] at h1 h2
      exact Or.inr ⟨le_antisymm h2 h1, haux⟩
    · apply pairwise_filterMap (R := fun e1 e2 => catIdx e1.1 < catIdx e2.1)
      · intro a b x y hR hfa hfb
        by_cases hca : 1 ≤ a.2.countP (fun p => search p (combinedText title summary))
        · by_cases hcb : 1 ≤ b.2.countP (fun p => search p (combinedText title summary))
          · rw [if_pos hca] at hfa
            rw [if_pos hcb] at hfb
            rw [← Option.some.inj hfa, ← Option.some.inj hfb]
            exact hR
          · rw [if_neg hcb] at hfb
            cases hfb
        · rw [if_neg hca] at hfa
          cases hfa
      · exact theme_idx_pairwise

theorem pairwise_trivial (l : List α) : l.Pairwise (fun _ _ => True) := by
  induction l with
  | nil => exact List.Pairwise.nil
  | cons x xs ih => exact List.pairwise_cons.2 ⟨fun _ _ => trivial, ih⟩

/-- C1: every adjacent pair (A, B) of the output, A before B, satisfies
`rankScore A > rankScore B`, or `rankScore A = rankScore B` with
`published A ≥ published B` — rankScore descending, ties by published
descending. -/
theorem claim_C1 (now : ℚ) (stories : List RawStory) :
    List.Chain' (fun A B => A.rankScore > B.rankScore
        ∨ (A.rankScore = B.rankScore ∧ B.published ≤ A.published))
      (process_stories now stories) := by
  apply List.Pairwise.chain'
  unfold process_stories
  apply pairwise_sSort (q := fun y x => y.published ≤ x.published)
  · intro a b c h1 h2
    simp only [decide_eq_true_eq] at h1 h2 ⊢
    exact le_trans h2 h1
  · intro a b hab
    simp only [decide_eq_true_eq]
    rcases hab with hlt | ⟨heq, _⟩
    · exact le_of_lt hlt
    · exact le_of_eq heq.symm
  · intro a b hfalse
    left
    have : ¬ (a.rankScore ≤ b.rankScore) := by
      simpa using hfalse
    exact lt_of_not_le this
  · intro a b h1 h2 haux
    simp only [decide_eq_true_eq] at h1 h2
    exact Or.inr ⟨le_antisymm h2 h1, haux⟩
  · apply pairwise_sSort (q := fun _ _ => True)
    · intro a b c h1 h2
      simp only [decide_eq_true_eq] at h1 h2 ⊢
      exact le_trans h2 h1
    · intro a b hab
      simp only [decide_eq_true_eq]
      exact hab
    · intro a b hfalse
      have : ¬ (a.published ≤ b.published) := by
        simpa using hfalse
      exact le_of_not_le this
    · intro a b h1 _ _
      simpa using h1
    · exact pairwise_trivial _

/-- C7 counterexample: a two-story batch with no duplicates in which the
final ranking sort reverses the input order — `process_stories` does not
preserve the relative order of the kept records, even though the dedup
stage keeps both in order. -/
theorem claim_C7_counterexample :
    dedup [] [cexA, cexB] = [cexA, cexB]
    ∧ (process_stories cexNow [cexA, cexB]).map ProcessedStory.title
        ≠ [cexA, cexB].map RawStory.title := by
  constructor
  · decide
  · with_unfolding_all decide

/-- C7 amended: the dedup stage — not the whole of `process_stories` —
keeps exactly the first occurrence of each normalized title key, preserving
the relative input order (its output is a sublist of the input with
pairwise-distinct keys covering every input key); `process_stories` then
emits exactly the processed forms of those records, reordered by the final
ranking sorts. -/
theorem claim_C7_amended (now : ℚ) (stories : List RawStory) :
    dedup [] stories = firstOccs stories
    ∧ (dedup [] stories).Sublist stories
    ∧ ((dedup [] stories).map (fun s => normTitle s.title)).Nodup
    ∧ (∀ s ∈ stories, ∃ t ∈ dedup [] stories,
        normTitle t.title = normTitle s.title)
    ∧ (process_stories now stories).Perm
        ((dedup [] stories).map (processStory now)) := by
  refine ⟨dedup_nil_eq_firstOccs stories, ?_, ?_, ?_, ?_⟩
  · rw [dedup_nil_eq_firstOccs]
    exact firstOccs_sublist stories
  · rw [dedup_nil_eq_firstOccs]
    exact nodup_keys_firstOccs stories
  · intro s hs
    rw [dedup_nil_eq_firstOccs]
    exact firstOccs_covers stories s hs
  · unfold process_stories
    exact (perm_sSort _ _).trans (perm_sSort _ _)

theorem claim_C8_witness :
    parsePublished wStory8.published = none
    ∧ wStory8 ∈ dedup [] [wStory8]
    ∧ ((processStory 5 wStory8).ageDays = 0
      ∧ (processStory 5 wStory8).rankScore
          = round2 ((processStory 5 wStory8).nationalSignificance : ℚ)
      ∧ processStory 5 wStory8 ∈ process_stories 5 [wStory8]) :=
  ⟨by decide, by decide, claim_C8 5 wStory8 (by decide) [wStory8] (by decide)⟩

end BayArea
